import Mathlib

/-!
Verification of the core generation pipeline of the API-from-Scratch
repository (src/app.py): the OpenAPI spec generator, the FastAPI server
scaffolder, the client-demo scaffolder, the archive packager and the
heuristic quality scorer.

The Python code is shallowly embedded:

* An endpoint record (a Python dict with keys `path`, `method`, `summary`,
  `func_name`) becomes the structure `Endpoint`; `summary` is optional
  because `generate_openapi` reads it with `ep.get('summary', '')`.
* A Python dict (which preserves insertion order) becomes an association
  list; `alLookup` is dict indexing, `alInsert` is `d[k] = v` (replace in
  place when the key exists, append otherwise), and `updPaths` is the
  composite `spec['paths'].setdefault(path, {})[method] = entry`.
* `generate_openapi` returns `yaml.safe_dump(spec, sort_keys=False)`, a
  deterministic serialization of the nested dict that preserves key
  insertion order; the embedding returns the document structure
  (`OpenApiDoc`) itself, which the YAML text is a pure function of.
* `scaffold_fastapi_app` calls `datetime.utcnow().isoformat()`; the
  embedding takes the generated timestamp as an explicit argument.
  The Jinja2 template is rendered with default settings (no block
  trimming, trailing template newline stripped), giving the exact
  output string reproduced in `scaffold_fastapi_app` below.
* `make_zip` writes each mapping entry into a `zipfile.ZipFile` with
  `ZIP_DEFLATED`.  The zip container and the deflate codec live in the
  Python standard library, outside this repository; they are modelled by
  their round-trip contract: an archive is the ordered list of
  (name, content) entries written into it, and decompression
  (`unzipEntries`) reads those entries back.
-/

/-- An endpoint record: the Python dict
`{"path": .., "method": .., "summary": .., "func_name": ..}`.
`summary` is optional because `generate_openapi` reads it with
`ep.get('summary', '')` and the Jinja template renders a missing value
as the empty string. -/
structure Endpoint where
  path : String
  method : String
  summary : Option String
  func_name : String
deriving DecidableEq

/-- ASCII lowercasing of one character, as Python's `str.lower` acts on
the ASCII range (every string this repository lowercases is an ASCII
HTTP verb).  Kept as an explicit case map so that it evaluates inside
the kernel. -/
def lowerChar (c : Char) : Char :=
  if 65 ≤ c.toNat ∧ c.toNat ≤ 90 then Char.ofNat (c.toNat + 32) else c

/-- ASCII uppercasing of one character, as Python's `str.upper` acts on
the ASCII range. -/
def upperChar (c : Char) : Char :=
  if 97 ≤ c.toNat ∧ c.toNat ≤ 122 then Char.ofNat (c.toNat - 32) else c

/-- Python `s.lower()` (on the ASCII range). -/
def strLower (s : String) : String := ⟨s.data.map lowerChar⟩

/-- Python `s.upper()` (on the ASCII range). -/
def strUpper (s : String) : String := ⟨s.data.map upperChar⟩

/-- Python dict indexing `d[k]` (first, and with `alInsert` unique, match),
on an insertion-ordered association list. -/
def alLookup {α : Type} (l : List (String × α)) (k : String) : Option α :=
  match l with
  | [] => none
  | (a, v) :: t => if a = k then some v else alLookup t k

/-- Python dict assignment `d[k] = v`: replace the value in place when the
key is present, append the new pair otherwise. -/
def alInsert {α : Type} (l : List (String × α)) (k : String) (v : α) : List (String × α) :=
  match l with
  | [] => [(k, v)]
  | (a, w) :: t => if a = k then (a, v) :: t else (a, w) :: alInsert t k v

/-- The `{'description': 'Success'}` object of a response. -/
structure RespInfo where
  description : String
deriving DecidableEq

/-- One operation object of the spec:
`{'summary': .., 'responses': {'200': {'description': 'Success'}}}`. -/
structure OpEntry where
  summary : String
  responses : List (String × RespInfo)
deriving DecidableEq

/-- The operation object `generate_openapi` stores for an endpoint. -/
def mkEntry (ep : Endpoint) : OpEntry :=
  ⟨ep.summary.getD (""), [(("200"), ⟨("Success")⟩)]⟩

/-- The `info` block `{'title': .., 'version': .., 'description': ..}`. -/
structure InfoBlock where
  title : String
  version : String
  description : String
deriving DecidableEq

/-- One element of the `servers` list, `{'url': ..}`. -/
structure ServerEntry where
  url : String
deriving DecidableEq

/-- The `paths` mapping: path `→` (lowercased method `→` operation object),
both levels insertion-ordered dicts. -/
abbrev PathsMap := List (String × List (String × OpEntry))

/-- The whole OpenAPI document built by `generate_openapi`. -/
structure OpenApiDoc where
  openapi : String
  info : InfoBlock
  servers : List ServerEntry
  paths : PathsMap
deriving DecidableEq

/-- The loop body `spec['paths'].setdefault(path, {})[method] = e`:
fetch (or create empty) the inner dict at `path` and assign `e` at
`method` inside it, in place. -/
def updPaths (acc : PathsMap) (p m : String) (e : OpEntry) : PathsMap :=
  match acc with
  | [] => [(p, [(m, e)])]
  | (a, inner) :: t =>
      if a = p then (a, alInsert inner m e) :: t
      else (a, inner) :: updPaths t p m e

/-- One iteration of the `for ep in endpoints` loop of `generate_openapi`. -/
def specStep (acc : PathsMap) (ep : Endpoint) : PathsMap :=
  updPaths acc ep.path (strLower ep.method) (mkEntry ep)

/-- The `paths` dict after the whole loop of `generate_openapi`. -/
def buildPaths (endpoints : List Endpoint) : PathsMap :=
  endpoints.foldl specStep []

/-- `generate_openapi(api_name, version, desc, endpoints)` from src/app.py:
the OpenAPI document (the YAML string returned by the Python function is
`yaml.safe_dump` of exactly this structure, with key order preserved). -/
def generate_openapi (api_name version desc : String) (endpoints : List Endpoint) : OpenApiDoc :=
  ⟨("3.0.3"), ⟨api_name, version, desc⟩, [⟨("\x7b\x7bbaseUrl\x7d\x7d")⟩], buildPaths endpoints⟩

/-- Nested lookup `spec['paths'][p][m]`. -/
def alLookup2 (paths : PathsMap) (p m : String) : Option OpEntry :=
  match alLookup paths p with
  | none => none
  | some inner => alLookup inner m

/-- `scaffold_fastapi_app(api_name, version, endpoints)` from src/app.py
with the generated timestamp (`datetime.utcnow().isoformat()`) passed
explicitly.  This is the exact Jinja2 rendering of the template: text up
to the `for` tag, then the loop body once per endpoint in input order
(the template's trailing newline is stripped by Jinja's default
`keep_trailing_newline=False`). -/
def scaffold_fastapi_app (api_name version : String) (endpoints : List Endpoint)
    (timestamp : String) : String :=
  ("\nfrom fastapi import FastAPI\n\napp = FastAPI(title=\"") ++ api_name
    ++ ("\", version=\"") ++ version ++ ("\")") ++ ("\n\n")
    ++ ("@app.get(\"/health\")\nasync def health():\n    return \x7b\"status\": \"ok\", \"timestamp\": \"")
    ++ timestamp ++ ("\"\x7d") ++ ("\n\n")
    ++ String.join (endpoints.map (fun ep =>
        ("\n") ++ ("@app.") ++ strLower ep.method ++ ("(\"") ++ ep.path
          ++ ("\")\nasync def ") ++ ep.func_name
          ++ ("():\n    return \x7b\"demo\": \"") ++ ep.summary.getD ("")
          ++ ("\"\x7d") ++ ("\n")))

/-- `scaffold_client_demo(endpoints)` from src/app.py.  The invocation
line reproduces the Python f-string
`f"resp = requests.{method}(f'{ \x7b 'BASE_URL' \x7d }{path}')"` whose doubled
braces form a one-element set display, so the emitted text contains the
literal `\x7b'BASE_URL'\x7d` rather than an interpolation of the `BASE_URL`
constant. -/
def scaffold_client_demo (endpoints : List Endpoint) : String :=
  String.intercalate ("\n")
    (("import requests\nBASE_URL = \"http://localhost:8000\"\n")
      :: (endpoints.map (fun ep =>
            [("resp = requests.") ++ strLower ep.method
               ++ ("(f\x27\x7b\x27BASE_URL\x27\x7d") ++ ep.path ++ ("\x27)"),
             ("print(resp.status_code, resp.text)")])).flatten)

/-- `ZipFile.writestr(fname, content)`: append one entry to the archive.
The archive is modelled as its ordered entry list (see the file header). -/
def writestr (entries : List (String × String)) (fname content : String) :
    List (String × String) :=
  entries ++ [(fname, content)]

/-- `make_zip(files)` from src/app.py: write every `(fname, content)` pair
of the mapping, in iteration order, into a fresh archive. -/
def make_zip (files : List (String × String)) : List (String × String) :=
  files.foldl (fun z fc => writestr z fc.1 fc.2) []

/-- Decompressing an archive: reading back its entry list (the zip
container with `ZIP_DEFLATED` round-trips entry names and contents
byte-for-byte; that standard-library contract is the model here). -/
def unzipEntries (archive : List (String × String)) : List (String × String) :=
  archive

/-- The `README.md` content assembled at download time in src/app.py:
`f"# \x7bapi_name\x7d\n\n\x7bdesc\x7d\n"`. -/
def readmeFile (api_name desc : String) : String :=
  ("# ") ++ api_name ++ ("\n\n") ++ desc ++ ("\n")

/-- The fixed four-entry `files` dict assembled per generation in
src/app.py (lines 130-135). -/
def projectFiles (openapi_yaml fastapi_code client_code api_name desc : String) :
    List (String × String) :=
  [(("openapi.yaml"), openapi_yaml),
   (("backend/main.py"), fastapi_code),
   (("client_demo.py"), client_code),
   (("README.md"), readmeFile api_name desc)]

/-- `evaluate_api_quality(endpoints)` from src/app.py:
early return 0 on the empty list, then three additive heuristics. -/
def evaluate_api_quality (endpoints : List Endpoint) : Nat :=
  if endpoints = [] then 0
  else
    (if 3 ≤ endpoints.length then 5
     else if endpoints.length = 2 then 3
     else 1)
    +
    (if ("GET") ∈ endpoints.map (fun ep => strUpper ep.method)
        ∧ ("POST") ∈ endpoints.map (fun ep => strUpper ep.method) then 3
     else if ("GET") ∈ endpoints.map (fun ep => strUpper ep.method)
             ∨ ("POST") ∈ endpoints.map (fun ep => strUpper ep.method) then 1
     else 0)
    +
    (if endpoints.length ≤ endpoints.countP (fun ep => decide (3 < ep.func_name.length)) then 2
     else if 0 < endpoints.countP (fun ep => decide (3 < ep.func_name.length)) then 1
     else 0)

/-- Claim-side breadth contribution, following the claim's wording:
`+5` if at least 3 endpoints, `+3` if exactly 2, else `+1`. -/
def breadthSpec (endpoints : List Endpoint) : Nat :=
  if 3 ≤ endpoints.length then 5
  else if endpoints.length = 2 then 3
  else 1

/-- The HTTP verb `v` occurs case-insensitively among the methods. -/
def occursCI (endpoints : List Endpoint) (v : String) : Prop :=
  ∃ ep, ep ∈ endpoints ∧ strUpper ep.method = v

instance (endpoints : List Endpoint) (v : String) : Decidable (occursCI endpoints v) := by
  unfold occursCI; infer_instance

/-- Claim-side CRUD contribution: `+3` if both GET and POST occur
(case-insensitively), `+1` if exactly one of the two occurs, else `+0`. -/
def crudSpec (endpoints : List Endpoint) : Nat :=
  if occursCI endpoints ("GET") ∧ occursCI endpoints ("POST") then 3
  else if (occursCI endpoints ("GET") ∧ ¬ occursCI endpoints ("POST"))
          ∨ (¬ occursCI endpoints ("GET") ∧ occursCI endpoints ("POST")) then 1
  else 0

/-- Claim-side clarity contribution: `+2` if every endpoint's `func_name`
has length over 3, `+1` if at least one but not all do, else `+0`. -/
def claritySpec (endpoints : List Endpoint) : Nat :=
  if ∀ ep ∈ endpoints, 3 < ep.func_name.length then 2
  else if ∃ ep ∈ endpoints, 3 < ep.func_name.length then 1
  else 0

/-- The fixed fragment of the scaffolded server before the generation
timestamp (application declaration and health handler opening). -/
def scaffoldBeforeTs (api_name version : String) : String :=
  ("\nfrom fastapi import FastAPI\n\napp = FastAPI(title=\"") ++ api_name
    ++ ("\", version=\"") ++ version ++ ("\")") ++ ("\n\n")
    ++ ("@app.get(\"/health\")\nasync def health():\n    return \x7b\"status\": \"ok\", \"timestamp\": \"")

/-- The fragment of the scaffolded server after the generation timestamp
(health handler closing and the per-endpoint handlers). -/
def scaffoldAfterTs (endpoints : List Endpoint) : String :=
  ("\"\x7d") ++ ("\n\n")
    ++ String.join (endpoints.map (fun ep =>
        ("\n") ++ ("@app.") ++ strLower ep.method ++ ("(\"") ++ ep.path
          ++ ("\")\nasync def ") ++ ep.func_name
          ++ ("():\n    return \x7b\"demo\": \"") ++ ep.summary.getD ("")
          ++ ("\"\x7d") ++ ("\n")))

/-- The application-declaration block of the scaffolded server. -/
def fastApiHeaderText (api_name version : String) : String :=
  ("\nfrom fastapi import FastAPI\n\napp = FastAPI(title=\"") ++ api_name
    ++ ("\", version=\"") ++ version ++ ("\")")

/-- The fixed health-check handler of the scaffolded server. -/
def healthHandlerText (timestamp : String) : String :=
  ("@app.get(\"/health\")\nasync def health():\n    return \x7b\"status\": \"ok\", \"timestamp\": \"")
    ++ timestamp ++ ("\"\x7d")

/-- One generated per-endpoint handler of the scaffolded server. -/
def epHandlerText (ep : Endpoint) : String :=
  ("@app.") ++ strLower ep.method ++ ("(\"") ++ ep.path
    ++ ("\")\nasync def ") ++ ep.func_name
    ++ ("():\n    return \x7b\"demo\": \"") ++ ep.summary.getD ("")
    ++ ("\"\x7d")

/-- Number of newline characters in a string. -/
def nlCount (s : String) : Nat :=
  s.data.count ('\n')

/-! ### Association-list lemmas -/

theorem alLookup_alInsert {α : Type} (l : List (String × α)) (k q : String) (v : α) :
    alLookup (alInsert l k v) q = if k = q then some v else alLookup l q := by
  induction l with
  | nil => simp [alInsert, alLookup]
  | cons h t ih =>
      obtain ⟨a, w⟩ := h
      by_cases hak : a = k
      · subst hak
        by_cases haq : a = q <;> simp [alInsert, alLookup, haq]
      · by_cases haq : a = q
        · subst haq
          have : ¬ k = a := fun e => hak e.symm
          simp [alInsert, alLookup, hak, this]
        · simp [alInsert, alLookup, hak, haq, ih]

theorem keys_alInsert {α : Type} (l : List (String × α)) (k : String) (v : α) :
    (alInsert l k v).map Prod.fst
      = if k ∈ l.map Prod.fst then l.map Prod.fst else l.map Prod.fst ++ [k] := by
  induction l with
  | nil => simp [alInsert]
  | cons h t ih =>
      obtain ⟨a, w⟩ := h
      by_cases hak : a = k
      · subst hak; simp [alInsert]
      · have : ¬ k = a := fun e => hak e.symm
        by_cases hkt : k ∈ t.map Prod.fst <;>
          simp [alInsert, hak, this, hkt, ih]

theorem mem_keys_alInsert {α : Type} (l : List (String × α)) (k q : String) (v : α) :
    q ∈ (alInsert l k v).map Prod.fst ↔ q = k ∨ q ∈ l.map Prod.fst := by
  rw [keys_alInsert]
  by_cases hk : k ∈ l.map Prod.fst
  · simp only [hk, if_pos]
    constructor
    · exact fun h => Or.inr h
    · rintro (rfl | h)
      · exact hk
      · exact h
  · simp [hk, or_comm]

theorem nodup_keys_alInsert {α : Type} (l : List (String × α)) (k : String) (v : α)
    (h : (l.map Prod.fst).Nodup) : ((alInsert l k v).map Prod.fst).Nodup := by
  rw [keys_alInsert]
  by_cases hk : k ∈ l.map Prod.fst
  · simpa [hk] using h
  · simp [hk, List.nodup_append, h]

theorem alLookup_updPaths_self (acc : PathsMap) (p m : String) (e : OpEntry) :
    alLookup (updPaths acc p m e) p = some (alInsert ((alLookup acc p).getD []) m e) := by
  induction acc with
  | nil => simp [updPaths, alLookup, alInsert]
  | cons h t ih =>
      obtain ⟨a, inner⟩ := h
      by_cases hap : a = p
      · subst hap; simp [updPaths, alLookup]
      · simp [updPaths, alLookup, hap, ih]

theorem alLookup_updPaths_ne (acc : PathsMap) (p m q : String) (e : OpEntry)
    (hq : q ≠ p) : alLookup (updPaths acc p m e) q = alLookup acc q := by
  induction acc with
  | nil =>
      have : ¬ p = q := fun h => hq h.symm
      simp [updPaths, alLookup, this]
  | cons h t ih =>
      obtain ⟨a, inner⟩ := h
      by_cases hap : a = p
      · subst hap
        have : ¬ a = q := fun h => hq h.symm
        simp [updPaths, alLookup, this]
      · by_cases haq : a = q <;> simp [updPaths, alLookup, hap, haq, hq, ih]

theorem keys_updPaths (acc : PathsMap) (p m : String) (e : OpEntry) :
    (updPaths acc p m e).map Prod.fst
      = if p ∈ acc.map Prod.fst then acc.map Prod.fst else acc.map Prod.fst ++ [p] := by
  induction acc with
  | nil => simp [updPaths]
  | cons h t ih =>
      obtain ⟨a, inner⟩ := h
      by_cases hap : a = p
      · subst hap; simp [updPaths]
      · have : ¬ p = a := fun h => hap h.symm
        by_cases hpt : p ∈ t.map Prod.fst <;>
          simp [updPaths, hap, this, hpt, ih]

theorem mem_keys_updPaths (acc : PathsMap) (p m q : String) (e : OpEntry) :
    q ∈ (updPaths acc p m e).map Prod.fst ↔ q = p ∨ q ∈ acc.map Prod.fst := by
  rw [keys_updPaths]
  by_cases hp : p ∈ acc.map Prod.fst
  · simp only [hp, if_pos]
    constructor
    · exact fun h => Or.inr h
    · rintro (rfl | h)
      · exact hp
      · exact h
  · simp [hp, or_comm]

theorem nodup_keys_updPaths (acc : PathsMap) (p m : String) (e : OpEntry)
    (h : (acc.map Prod.fst).Nodup) : ((updPaths acc p m e).map Prod.fst).Nodup := by
  rw [keys_updPaths]
  by_cases hp : p ∈ acc.map Prod.fst
  · simpa [hp] using h
  · simp [hp, List.nodup_append, h]

theorem alLookup2_updPaths (acc : PathsMap) (p m q r : String) (e : OpEntry) :
    alLookup2 (updPaths acc p m e) q r
      = if p = q ∧ m = r then some e else alLookup2 acc q r := by
  by_cases hq : q = p
  · subst hq
    have h1 : alLookup2 (updPaths acc q m e) q r
        = alLookup (alInsert ((alLookup acc q).getD []) m e) r := by
      simp [alLookup2, alLookup_updPaths_self]
    rw [h1, alLookup_alInsert]
    by_cases hmr : m = r
    · simp [hmr]
    · simp only [hmr, and_false, if_false, true_and, if_neg]
      cases hacc : alLookup acc q with
      | none => simp [alLookup2, hacc, alLookup]
      | some inner => simp [alLookup2, hacc]
  · have h2 : ¬ (p = q ∧ m = r) := fun hc => hq hc.1.symm
    rw [alLookup2, alLookup_updPaths_ne _ _ _ _ _ hq, if_neg h2, alLookup2]

theorem alLookup_eq_none_iff {α : Type} (l : List (String × α)) (k : String) :
    alLookup l k = none ↔ k ∉ l.map Prod.fst := by
  induction l with
  | nil => simp [alLookup]
  | cons h t ih =>
      obtain ⟨a, v⟩ := h
      by_cases hak : a = k
      · subst hak; simp [alLookup]
      · simp only [alLookup, if_neg hak, List.map_cons, List.mem_cons, ih]
        constructor
        · intro hnot hc
          rcases hc with hc | hc
          · exact hak hc.symm
          · exact hnot hc
        · intro hnot hc
          exact hnot (Or.inr hc)

theorem mem_of_alLookup_eq_some {α : Type} (l : List (String × α)) (k : String) (v : α)
    (h : alLookup l k = some v) : (k, v) ∈ l := by
  induction l with
  | nil => simp [alLookup] at h
  | cons hd t ih =>
      obtain ⟨a, w⟩ := hd
      by_cases hak : a = k
      · subst hak
        simp [alLookup] at h
        simp [h]
      · simp [alLookup, hak] at h
        exact List.mem_cons_of_mem _ (ih h)

/-- The per-pair match predicate of the `generate_openapi` loop. -/
def epMatches (p m : String) (ep : Endpoint) : Bool :=
  ep.path == p && strLower ep.method == m

theorem alLookup2_foldl (eps : List Endpoint) (q r : String) : ∀ acc : PathsMap,
    alLookup2 (List.foldl specStep acc eps) q r
      = (((eps.reverse.find? (epMatches q r)).map mkEntry).or (alLookup2 acc q r)) := by
  induction eps with
  | nil => intro acc; simp
  | cons e es ih =>
      intro acc
      rw [List.foldl_cons, ih, List.reverse_cons, List.find?_append]
      cases hfind : es.reverse.find? (epMatches q r) with
      | some x => simp [hfind, Option.or]
      | none =>
          have hstep : alLookup2 (specStep acc e) q r
              = if e.path = q ∧ strLower e.method = r then some (mkEntry e)
                else alLookup2 acc q r := by
            simp [specStep, alLookup2_updPaths]
          by_cases hm : e.path = q ∧ strLower e.method = r
      
      
          · have : epMatches q r e = true := by
              simp [epMatches, hm.1, hm.2]
            simp [hfind, hstep, hm, List.find?, this, Option.or]
          · have : epMatches q r e = false := by
              simp only [epMatches, Bool.and_eq_true, beq_iff_eq, Bool.and_eq_false_iff]
              rcases Decidable.not_and_iff_or_not.mp hm with h1 | h1
              · exact Or.inl (by simpa using h1)
              · exact Or.inr (by simpa using h1)
            simp [hfind, hstep, hm, List.find?, this, Option.or]

theorem alLookup2_buildPaths (eps : List Endpoint) (q r : String) :
    alLookup2 (buildPaths eps) q r
      = (eps.reverse.find? (epMatches q r)).map mkEntry := by
  rw [buildPaths, alLookup2_foldl]
  cases h : eps.reverse.find? (epMatches q r) <;> simp [Option.or, alLookup2, alLookup]

theorem mem_keys_foldl (eps : List Endpoint) (q : String) : ∀ acc : PathsMap,
    (q ∈ (List.foldl specStep acc eps).map Prod.fst
      ↔ q ∈ acc.map Prod.fst ∨ ∃ ep, ep ∈ eps ∧ ep.path = q) := by
  induction eps with
  | nil => intro acc; simp
  | cons e es ih =>
      intro acc
      rw [List.foldl_cons, ih]
      rw [show specStep acc e = updPaths acc e.path (strLower e.method) (mkEntry e) from rfl]
      rw [mem_keys_updPaths]
      constructor
      · rintro ((rfl | h) | h)
        · exact Or.inr ⟨e, List.mem_cons_self _ _, rfl⟩
        · exact Or.inl h
        · obtain ⟨ep, hmem, hp⟩ := h
          exact Or.inr ⟨ep, List.mem_cons_of_mem _ hmem, hp⟩
      · rintro (h | h)
        · exact Or.inl (Or.inr h)
        · obtain ⟨ep, hmem, hp⟩ := h
          rcases List.mem_cons.mp hmem with rfl | hmem'
          · exact Or.inl (Or.inl hp.symm)
          · exact Or.inr ⟨ep, hmem', hp⟩

theorem nodup_keys_foldl (eps : List Endpoint) : ∀ acc : PathsMap,
    (acc.map Prod.fst).Nodup → ((List.foldl specStep acc eps).map Prod.fst).Nodup := by
  induction eps with
  | nil => intro acc h; simpa using h
  | cons e es ih =>
      intro acc h
      rw [List.foldl_cons]
      exact ih _ (nodup_keys_updPaths _ _ _ _ h)

theorem mem_updPaths_cases (acc : PathsMap) (p m : String) (e : OpEntry) (pr : String × List (String × OpEntry))
    (h : pr ∈ updPaths acc p m e) :
    pr ∈ acc ∨ ∃ inner, pr = (p, alInsert inner m e) ∧ ((p, inner) ∈ acc ∨ inner = []) := by
  induction acc with
  | nil =>
      simp [updPaths] at h
      exact Or.inr ⟨[], by simp [h, alInsert], Or.inr rfl⟩
  | cons hd t ih =>
      obtain ⟨a, inner⟩ := hd
      by_cases hap : a = p
      · subst hap
        simp only [updPaths, if_pos rfl] at h
        rcases List.mem_cons.mp h with rfl | h'
        · exact Or.inr ⟨inner, rfl, Or.inl (List.mem_cons_self _ _)⟩
        · exact Or.inl (List.mem_cons_of_mem _ h')
      · simp only [updPaths, if_neg hap] at h
        rcases List.mem_cons.mp h with rfl | h'
        · exact Or.inl (List.mem_cons_self _ _)
        · rcases ih h' with h1 | ⟨inn, he, h2⟩
          · exact Or.inl (List.mem_cons_of_mem _ h1)
          · refine Or.inr ⟨inn, he, ?_⟩
            rcases h2 with h2 | h2
            · exact Or.inl (List.mem_cons_of_mem _ h2)
            · exact Or.inr h2

theorem inner_nodup_foldl (eps : List Endpoint) : ∀ acc : PathsMap,
    (∀ pr, pr ∈ acc → (pr.2.map Prod.fst).Nodup) →
    ∀ pr, pr ∈ List.foldl specStep acc eps → (pr.2.map Prod.fst).Nodup := by
  induction eps with
  | nil => intro acc h pr hpr; exact h pr (by simpa using hpr)
  | cons e es ih =>
      intro acc h pr hpr
      rw [List.foldl_cons] at hpr
      refine ih _ ?_ pr hpr
      intro qr hqr
      rcases mem_updPaths_cases _ _ _ _ _ hqr with h1 | ⟨inn, rfl, h2⟩
      · exact h _ h1
      · rcases h2 with h2 | rfl
        · exact nodup_keys_alInsert _ _ _ (h _ h2)
        · simp [alInsert]

/-! ### Claim theorems -/

/-- Claim C1: for every call `generate_openapi(name, version, desc,
endpoints)`, the `paths` mapping of the returned document contains
exactly one key per distinct path occurring in `endpoints` (no
duplicate outer keys, and a key exactly for the paths present) and,
under each path, exactly one key per distinct lowercased method
supplied for that path; every stored entry is
`\x7bsummary: <that endpoint's summary, empty when absent>,
responses: \x7b"200": \x7bdescription: "Success"\x7d\x7d\x7d` for a matching
endpoint; and the empty endpoint list yields an empty paths map. -/
theorem c1_generate_openapi_paths_exact (n v d : String) (eps : List Endpoint) :
    (((generate_openapi n v d eps).paths.map Prod.fst).Nodup)
    ∧ (∀ p, p ∈ (generate_openapi n v d eps).paths.map Prod.fst
          ↔ ∃ ep, ep ∈ eps ∧ ep.path = p)
    ∧ (∀ p inner, alLookup (generate_openapi n v d eps).paths p = some inner →
        ((inner.map Prod.fst).Nodup
         ∧ ∀ m, m ∈ inner.map Prod.fst
             ↔ ∃ ep, ep ∈ eps ∧ ep.path = p ∧ strLower ep.method = m))
    ∧ (∀ p m e, alLookup2 (generate_openapi n v d eps).paths p m = some e →
        ∃ ep, ep ∈ eps ∧ ep.path = p ∧ strLower ep.method = m
          ∧ e = ⟨ep.summary.getD (""), [(("200"), ⟨("Success")⟩)]⟩)
    ∧ (eps = [] → (generate_openapi n v d eps).paths = []) := by
  have hpaths : (generate_openapi n v d eps).paths = buildPaths eps := rfl
  refine ⟨?_, ?_, ?_, ?_, ?_⟩
  · rw [hpaths, buildPaths]
    exact nodup_keys_foldl eps [] (by simp)
  · intro p
    rw [hpaths, buildPaths, mem_keys_foldl]
    simp
  · intro p inner h
    rw [hpaths] at h
    constructor
    · have hmem : (p, inner) ∈ buildPaths eps := mem_of_alLookup_eq_some _ _ _ h
      exact inner_nodup_foldl eps [] (by simp) (p, inner) hmem
    · intro m
      have h2 : alLookup2 (buildPaths eps) p m = alLookup inner m := by
        simp [alLookup2, h]
      rw [alLookup2_buildPaths] at h2
      constructor
      · intro hm
        have hne : alLookup inner m ≠ none := by
          intro hc
          rw [alLookup_eq_none_iff] at hc
          exact hc hm
        rw [← h2] at hne
        have hsome : (eps.reverse.find? (epMatches p m)).isSome := by
          cases hf : eps.reverse.find? (epMatches p m) with
          | none => rw [hf] at hne; simp at hne
          | some x => simp
        obtain ⟨x, hx, hpx⟩ := List.find?_isSome.mp hsome
        have hpx' : x.path = p ∧ strLower x.method = m := by simpa [epMatches] using hpx
        exact ⟨x, List.mem_reverse.mp hx, hpx'.1, hpx'.2⟩
      · rintro ⟨ep, hmem, hp, hm⟩
        have hsome : (eps.reverse.find? (epMatches p m)).isSome :=
          List.find?_isSome.mpr ⟨ep, List.mem_reverse.mpr hmem, by simp [epMatches, hp, hm]⟩
        cases hf : eps.reverse.find? (epMatches p m) with
        | none => rw [hf] at hsome; simp at hsome
        | some x =>
            have hlk : alLookup inner m = some (mkEntry x) := by rw [← h2, hf]; rfl
            by_contra hc
            rw [← alLookup_eq_none_iff] at hc
            rw [hlk] at hc
            simp at hc
  · intro p m e h
    rw [hpaths, alLookup2_buildPaths] at h
    rcases Option.map_eq_some'.mp h with ⟨ep, hfind, hmk⟩
    have hx : ep.path = p ∧ strLower ep.method = m := by
      simpa [epMatches] using List.find?_some hfind
    exact ⟨ep, List.mem_reverse.mp (List.mem_of_find?_eq_some hfind), hx.1, hx.2,
      by rw [← hmk]; rfl⟩
  · rintro rfl; rfl

/-- Claim C5: when the same `(path, lowercase(method))` pair occurs more
than once in the endpoint list, the spec entry for that pair carries the
data of the last such occurrence in input order (last write wins), and
no additional entry is created: the outer key appears at most once and
the method key at most once under it.  The hypothesis fixes the last
matching occurrence via `find?` on the reversed list. -/
theorem c5_duplicate_last_write_wins (n v d p m : String) (eps : List Endpoint)
    (ep' : Endpoint)
    (hlast : eps.reverse.find? (epMatches p m) = some ep') :
    alLookup2 (generate_openapi n v d eps).paths p m = some (mkEntry ep')
    ∧ List.count p ((generate_openapi n v d eps).paths.map Prod.fst) ≤ 1
    ∧ (∀ inner, alLookup (generate_openapi n v d eps).paths p = some inner →
        List.count m (inner.map Prod.fst) ≤ 1) := by
  have hpaths : (generate_openapi n v d eps).paths = buildPaths eps := rfl
  refine ⟨?_, ?_, ?_⟩
  · rw [hpaths, alLookup2_buildPaths, hlast]; rfl
  · rw [hpaths, buildPaths]
    exact List.nodup_iff_count_le_one.mp (nodup_keys_foldl eps [] (by simp)) p
  · intro inner hinner
    rw [hpaths] at hinner
    have hmem : (p, inner) ∈ buildPaths eps := mem_of_alLookup_eq_some _ _ _ hinner
    exact List.nodup_iff_count_le_one.mp
      (inner_nodup_foldl eps [] (by simp) (p, inner) hmem) m

/-- Witness for C5 at a concrete duplicate pair: two endpoints with path
`/t` and methods `POST`/`post`; the stored summary is the second one. -/
theorem c5_duplicate_last_write_wins_witness :
    alLookup2 (generate_openapi ("T") ("1") ("d")
        [⟨("/t"), ("POST"), some ("first"), ("f1")⟩,
         ⟨("/t"), ("post"), some ("second"), ("f2")⟩]).paths ("/t") ("post")
      = some (mkEntry ⟨("/t"), ("post"), some ("second"), ("f2")⟩)
    ∧ List.count ("/t") ((generate_openapi ("T") ("1") ("d")
        [⟨("/t"), ("POST"), some ("first"), ("f1")⟩,
         ⟨("/t"), ("post"), some ("second"), ("f2")⟩]).paths.map Prod.fst) ≤ 1
    ∧ (∀ inner, alLookup (generate_openapi ("T") ("1") ("d")
        [⟨("/t"), ("POST"), some ("first"), ("f1")⟩,
         ⟨("/t"), ("post"), some ("second"), ("f2")⟩]).paths ("/t") = some inner →
        List.count ("post") (inner.map Prod.fst) ≤ 1) :=
  c5_duplicate_last_write_wins ("T") ("1") ("d") ("/t") ("post")
    [⟨("/t"), ("POST"), some ("first"), ("f1")⟩,
     ⟨("/t"), ("post"), some ("second"), ("f2")⟩]
    ⟨("/t"), ("post"), some ("second"), ("f2")⟩ (by decide)

/-- Claim C9: `generate_openapi` never reads `func_name`: two endpoint
lists that agree pairwise on `path`, `method` and `summary` produce the
same document, whatever their `func_name` fields are. -/
theorem c9_generate_openapi_ignores_func_name (n v d : String) (l1 l2 : List Endpoint)
    (h : List.Forall₂
      (fun a b => a.path = b.path ∧ a.method = b.method ∧ a.summary = b.summary) l1 l2) :
    generate_openapi n v d l1 = generate_openapi n v d l2 := by
  have hfold : ∀ acc : PathsMap,
      List.foldl specStep acc l1 = List.foldl specStep acc l2 := by
    induction h with
    | nil => intro acc; rfl
    | @cons a b t1 t2 hr hrest ih =>
        intro acc
        rw [List.foldl_cons, List.foldl_cons]
        obtain ⟨hp, hm, hs⟩ := hr
        have hstep : specStep acc a = specStep acc b := by
          simp [specStep, mkEntry, hp, hm, hs]
        rw [hstep]
        exact ih _
  show OpenApiDoc.mk _ _ _ (buildPaths l1) = OpenApiDoc.mk _ _ _ (buildPaths l2)
  rw [show buildPaths l1 = buildPaths l2 from hfold []]

/-- Witness for C9: two single-endpoint lists differing only in
`func_name` give the same document. -/
theorem c9_generate_openapi_ignores_func_name_witness :
    generate_openapi ("T") ("1") ("d") [⟨("/a"), ("GET"), some ("s"), ("list_items")⟩]
      = generate_openapi ("T") ("1") ("d") [⟨("/a"), ("GET"), some ("s"), ("x")⟩] :=
  c9_generate_openapi_ignores_func_name ("T") ("1") ("d")
    [⟨("/a"), ("GET"), some ("s"), ("list_items")⟩]
    [⟨("/a"), ("GET"), some ("s"), ("x")⟩]
    (List.Forall₂.cons ⟨rfl, rfl, rfl⟩ List.Forall₂.nil)

/-- Claim C2: `evaluate_api_quality` returns 0 on the empty list and
otherwise the sum of the three contributions described by the claim
(breadth, CRUD coverage, naming clarity), and the result always lies
in `[0,10]`. -/
theorem c2_evaluate_api_quality_formula_and_range (eps : List Endpoint) :
    evaluate_api_quality eps
      = (if eps = [] then 0 else breadthSpec eps + crudSpec eps + claritySpec eps)
    ∧ evaluate_api_quality eps ≤ 10 := by
  constructor
  · by_cases hn : eps = []
    · simp [evaluate_api_quality, hn]
    · have hg : (("GET") ∈ eps.map (fun ep => strUpper ep.method))
          ↔ occursCI eps ("GET") := by
        simp [occursCI, List.mem_map]
      have hp : (("POST") ∈ eps.map (fun ep => strUpper ep.method))
          ↔ occursCI eps ("POST") := by
        simp [occursCI, List.mem_map]
      have hall : (eps.length ≤ eps.countP (fun ep => decide (3 < ep.func_name.length)))
          ↔ (∀ ep ∈ eps, 3 < ep.func_name.length) := by
        constructor
        · intro hle ep hmem
          have heq : eps.countP (fun ep => decide (3 < ep.func_name.length)) = eps.length :=
            Nat.le_antisymm (List.countP_le_length _) hle
          have := List.countP_eq_length.mp heq ep hmem
          simpa using this
        · intro hforall
          rw [List.countP_eq_length.mpr (fun ep hmem => by simpa using hforall ep hmem)]
      have hpos : (0 < eps.countP (fun ep => decide (3 < ep.func_name.length)))
          ↔ ∃ ep ∈ eps, 3 < ep.func_name.length := by
        rw [List.countP_pos_iff]
        simp
      have e2 : (if ("GET") ∈ eps.map (fun ep => strUpper ep.method)
            ∧ ("POST") ∈ eps.map (fun ep => strUpper ep.method) then 3
          else if ("GET") ∈ eps.map (fun ep => strUpper ep.method)
            ∨ ("POST") ∈ eps.map (fun ep => strUpper ep.method) then 1
          else 0) = crudSpec eps := by
        rw [crudSpec]
        by_cases hG : occursCI eps ("GET") <;> by_cases hP : occursCI eps ("POST") <;>
          simp [hg, hp, hG, hP]
      have e3 : (if eps.length ≤ eps.countP (fun ep => decide (3 < ep.func_name.length)) then 2
          else if 0 < eps.countP (fun ep => decide (3 < ep.func_name.length)) then 1
          else 0) = claritySpec eps := by
        rw [claritySpec]
        by_cases hA : ∀ ep ∈ eps, 3 < ep.func_name.length <;>
          by_cases hE : ∃ ep ∈ eps, 3 < ep.func_name.length <;>
          simp [hall, hpos, hA, hE]
      rw [evaluate_api_quality, if_neg hn, if_neg hn, e2, e3]
      rfl
  · rw [evaluate_api_quality]
    split_ifs <;> omega

/-- Claim C10: the quality score is invariant under permutation of the
endpoint list. -/
theorem c10_evaluate_api_quality_perm_invariant (l1 l2 : List Endpoint)
    (h : List.Perm l1 l2) :
    evaluate_api_quality l1 = evaluate_api_quality l2 := by
  by_cases hn : l1 = []
  · subst hn
    rw [h.symm.eq_nil]
  · have hn2 : l2 ≠ [] := by
      intro e
      subst e
      exact hn h.eq_nil
    have hl := h.length_eq
    have hcnt := List.Perm.countP_eq (fun ep => decide (3 < ep.func_name.length)) h
    have hGiff : (("GET") ∈ l1.map (fun ep => strUpper ep.method))
        ↔ (("GET") ∈ l2.map (fun ep => strUpper ep.method)) :=
      List.Perm.mem_iff (List.Perm.map (fun ep => strUpper ep.method) h)
    have hPiff : (("POST") ∈ l1.map (fun ep => strUpper ep.method))
        ↔ (("POST") ∈ l2.map (fun ep => strUpper ep.method)) :=
      List.Perm.mem_iff (List.Perm.map (fun ep => strUpper ep.method) h)
    rw [evaluate_api_quality, evaluate_api_quality, if_neg hn, if_neg hn2, hl, hcnt]
    by_cases hG1 : ("GET") ∈ l2.map (fun ep => strUpper ep.method) <;>
      by_cases hP1 : ("POST") ∈ l2.map (fun ep => strUpper ep.method) <;>
      simp [hGiff, hPiff, hG1, hP1]

/-- Witness for C10: swapping a two-endpoint list leaves the score
unchanged. -/
theorem c10_evaluate_api_quality_perm_invariant_witness :
    evaluate_api_quality
        [⟨("/a"), ("GET"), some ("s"), ("list_items")⟩,
         ⟨("/b"), ("POST"), some ("t"), ("mk")⟩]
      = evaluate_api_quality
        [⟨("/b"), ("POST"), some ("t"), ("mk")⟩,
         ⟨("/a"), ("GET"), some ("s"), ("list_items")⟩] :=
  c10_evaluate_api_quality_perm_invariant
    [⟨("/a"), ("GET"), some ("s"), ("list_items")⟩,
     ⟨("/b"), ("POST"), some ("t"), ("mk")⟩]
    [⟨("/b"), ("POST"), some ("t"), ("mk")⟩,
     ⟨("/a"), ("GET"), some ("s"), ("list_items")⟩]
    (List.Perm.swap _ _ [])

/-- Claim C3: the scaffolded server consists of the application
declaration followed by exactly `len(endpoints) + 1` handler blocks:
first the fixed health handler bound to `GET /health` returning
`\x7bstatus: "ok", timestamp: <the one timestamp captured per call>\x7d`, then
one handler per endpoint in input order, decorated with the lowercased
method and the path, named verbatim by `func_name`, returning
`\x7b"demo": summary\x7d`. -/
theorem c3_scaffold_fastapi_app_handlers (n v ts : String) (eps : List Endpoint) :
    (scaffold_fastapi_app n v eps ts
      = fastApiHeaderText n v ++ ("\n\n") ++ healthHandlerText ts ++ ("\n\n")
          ++ String.join (eps.map (fun ep => ("\n") ++ epHandlerText ep ++ ("\n"))))
    ∧ (healthHandlerText ts :: eps.map epHandlerText).length = eps.length + 1
    ∧ healthHandlerText ts
        = ("@app.get(\"/health\")\nasync def health():\n    return \x7b\"status\": \"ok\", \"timestamp\": \"")
            ++ ts ++ ("\"\x7d")
    ∧ (∀ ep, ep ∈ eps →
        epHandlerText ep
          = ("@app.") ++ strLower ep.method ++ ("(\"") ++ ep.path
              ++ ("\")\nasync def ") ++ ep.func_name
              ++ ("():\n    return \x7b\"demo\": \"") ++ ep.summary.getD ("")
              ++ ("\"\x7d")) := by
  refine ⟨?_, by simp, rfl, fun ep _ => rfl⟩
  simp only [scaffold_fastapi_app, fastApiHeaderText, healthHandlerText, epHandlerText,
    String.append_assoc]

/-- Claim C7: the four generators are deterministic functions of their
explicit inputs; the only impure input is the timestamp of
`scaffold_fastapi_app`, and two runs of it with the same arguments
differ exactly in the timestamp slot between the fixed fragments
`scaffoldBeforeTs` and `scaffoldAfterTs`. -/
theorem c7_generators_deterministic_up_to_timestamp (n v d t1 t2 : String)
    (eps : List Endpoint) :
    generate_openapi n v d eps = generate_openapi n v d eps
    ∧ scaffold_client_demo eps = scaffold_client_demo eps
    ∧ evaluate_api_quality eps = evaluate_api_quality eps
    ∧ scaffold_fastapi_app n v eps t1 = scaffoldBeforeTs n v ++ t1 ++ scaffoldAfterTs eps
    ∧ scaffold_fastapi_app n v eps t2 = scaffoldBeforeTs n v ++ t2 ++ scaffoldAfterTs eps := by
  refine ⟨rfl, rfl, rfl, ?_, ?_⟩ <;>
    simp only [scaffold_fastapi_app, scaffoldBeforeTs, scaffoldAfterTs, String.append_assoc]

/-- Claim C4, evaluated at the failing input: for the single endpoint
`GET /todos` the generated invocation line is
`resp = requests.get(f'\x7b'BASE_URL'\x7d/todos')` — the URL expression embeds
the literal text `'BASE_URL'` (a Python set display rendered into the
f-string), not a reference to the `BASE_URL` constant declared in the
preamble, so the request is not made against `base_url + path` as the
claim states. -/
theorem c4_scaffold_client_demo_failing_input :
    scaffold_client_demo [⟨("/todos"), ("GET"), some ("List todos"), ("list_todos")⟩]
      = ("import requests\nBASE_URL = \"http://localhost:8000\"\n\nresp = requests.get(f\x27\x7b\x27BASE_URL\x27\x7d/todos\x27)\nprint(resp.status_code, resp.text)") := by
  rfl

/-- Claim C6: decompressing the archive built by `make_zip` from a
mapping (a Python dict, hence with distinct keys) yields exactly the
mapping's entries, in iteration order, byte-for-byte, one entry per
key, with nothing added or dropped. -/
theorem c6_make_zip_round_trip (files : List (String × String))
    (hkeys : (files.map Prod.fst).Nodup) :
    unzipEntries (make_zip files) = files
    ∧ (∀ nm, nm ∈ files.map Prod.fst →
        List.count nm ((make_zip files).map Prod.fst) = 1) := by
  have hgen : ∀ (l : List (String × String)) (acc : List (String × String)),
      List.foldl (fun z fc => writestr z fc.1 fc.2) acc l = acc ++ l := by
    intro l
    induction l with
    | nil => intro acc; simp
    | cons f t ih =>
        intro acc
        rw [List.foldl_cons, ih]
        simp [writestr]
  have hmz : make_zip files = files := by
    rw [make_zip]
    simpa using hgen files []
  refine ⟨by rw [unzipEntries, hmz], ?_⟩
  intro nm hmem
  rw [hmz]
  exact List.count_eq_one_of_mem hkeys hmem

/-- Witness for C6 at the spec's own example: a one-file mapping
round-trips. -/
theorem c6_make_zip_round_trip_witness :
    unzipEntries (make_zip [(("a.txt"), ("hello"))]) = [(("a.txt"), ("hello"))]
    ∧ (∀ nm, nm ∈ [(("a.txt"), ("hello"))].map Prod.fst →
        List.count nm ((make_zip [(("a.txt"), ("hello"))]).map Prod.fst) = 1) :=
  c6_make_zip_round_trip [(("a.txt"), ("hello"))] (by decide)

/-- Claim C8 fails as stated: at `api_name = "Todo API"`,
`desc = "Auto-generated"` the README content is
`# Todo API\n\nAuto-generated\n` — a heading, a BLANK line, the
description and a trailing newline (three newline characters), not a
two-line document of the heading directly followed by the description. -/
theorem c8_readme_two_line_counterexample :
    readmeFile ("Todo API") ("Auto-generated") = ("# Todo API\n\nAuto-generated\n")
    ∧ readmeFile ("Todo API") ("Auto-generated")
        ≠ ("# Todo API") ++ ("\n") ++ ("Auto-generated")
    ∧ readmeFile ("Todo API") ("Auto-generated")
        ≠ ("# Todo API") ++ ("\n") ++ ("Auto-generated") ++ ("\n")
    ∧ nlCount (readmeFile ("Todo API") ("Auto-generated")) = 3 := by
  refine ⟨rfl, by decide, by decide, by decide⟩

/-- Claim C8 as amended: in the fixed four-entry archive the
`README.md` entry is `# <api_name>`, a blank line, the description and
a trailing newline. -/
theorem c8_readme_amended (oy fc cc n d : String) :
    alLookup (projectFiles oy fc cc n d) ("README.md")
      = some (("# ") ++ n ++ ("\n\n") ++ d ++ ("\n"))
    ∧ (projectFiles oy fc cc n d).map Prod.fst
      = [("openapi.yaml"), ("backend/main.py"), ("client_demo.py"), ("README.md")] := by
  exact ⟨rfl, rfl⟩
